import Mathlib

/-!
Verification development for the CCNA flashcards repository's AI-tutor
text-coercion pipeline.  JavaScript strings are modelled as `List Char`,
JavaScript runtime values as the inductive `JsValue`, and the recursive
normalizer (which may re-enter itself through `JSON.parse`) is given a
fuel parameter; all definitions are structurally recursive so that they
reduce inside the kernel.
-/

namespace CCNA

/-- Abbreviation: a JavaScript string, modelled as a list of characters. -/
abbrev Str := List Char

/-- Coerce a Lean string literal to the `Str` model. -/
def js (s : String) : Str := s.toList

/-- The JavaScript whitespace class used by `String.prototype.trim` and by
the regex class `\s` (ASCII part plus NBSP and BOM; the exotic Unicode
spaces never occur in the repository's data). -/
def isWs (c : Char) : Bool :=
  c = ' ' || c = '\t' || c = '\n' || c = '\r' || c = '\x0b' || c = '\x0c' ||
  c = ' ' || c = '﻿'

/-- Strip a maximal trailing run of whitespace (JS `trimEnd`).  The
`match` shares the recursive result between the emptiness test and the
reassembly. -/
def rstripWs : Str → Str
  | [] => []
  | c :: cs =>
    match rstripWs cs, isWs c with
    | [], true => []
    | r, _ => c :: r

/-- JS `String.prototype.trim`: strip leading and trailing whitespace. -/
def jsTrim (l : Str) : Str := rstripWs (l.dropWhile isWs)

/-- JS `s.replace(/\r\n/g, "\n")`: left-to-right, non-overlapping. -/
def normNL : Str → Str
  | '\r' :: '\n' :: rest => '\n' :: normNL rest
  | c :: rest => c :: normNL rest
  | [] => []

/-- JS `s.replace(/\u0000/g, "")`: delete every NUL character. -/
def remove0 (l : Str) : Str := l.filter (fun c => c ≠ '\x00')

/-- The string branch of `cleanText` (services/gemini.ts): normalize CRLF,
drop NULs, trim. -/
def cleanTextStr (s : Str) : Str := jsTrim (remove0 (normNL s))

/-- JS `s.split(/\n+/)`: maximal newline runs act as separators; a leading
or trailing separator clips an empty field at that end. -/
def splitNLPlus (s : Str) : List Str :=
  go (some []) s
where
  /-- `none` as first argument means we are inside a separator run. -/
  go : Option Str → Str → List Str
    | some cur, [] => [cur.reverse]
    | none, [] => [[]]
    | some cur, '\n' :: rest => cur.reverse :: go none rest
    | none, '\n' :: rest => go none rest
    | some cur, c :: rest => go (some (c :: cur)) rest
    | none, c :: rest => go (some [c]) rest

/-- JS `x.replace(/^[-*•]\s*/, "")`: drop one leading bullet marker and the
whitespace that follows it. -/
def stripBullet : Str → Str
  | [] => []
  | c :: rest =>
    if c = '-' || c = '*' || c = '•' then rest.dropWhile isWs else c :: rest

/-- JavaScript runtime values as far as the pipeline observes them.  JSON
numbers are kept as their source lexeme (their numeric value is never
consumed by the pipeline). -/
inductive JsValue where
  | undefined
  | null
  | bool (b : Bool)
  | num (lexeme : Str)
  | str (s : Str)
  | arr (elems : List JsValue)
  | obj (fields : List (Str × JsValue))

/-- Property lookup on an object's member list; later duplicate keys win,
matching both `JSON.parse` duplicate-key semantics and object spread. -/
def lastField : List (Str × JsValue) → Str → JsValue
  | [], _ => .undefined
  | (k', v) :: rest, k =>
    match lastField rest k with
    | .undefined => if k' = k then v else .undefined
    | r => r

/-- JS `v?.k`: property access with optional chaining; any non-object
(including arrays, whose properties the pipeline never reads) yields
`undefined`. -/
def getField : JsValue → Str → JsValue
  | .obj fs, k => lastField fs k
  | _, _ => .undefined

/-- JS `a ?? b`: nullish coalescing. -/
def orUndef (a b : JsValue) : JsValue :=
  match a with
  | .undefined => b
  | .null => b
  | _ => a

/-- Is a JSON number lexeme numerically zero (`0`, `-0`, `0.00`, `0e9`…)? -/
def isZeroLex (l : Str) : Bool :=
  let l := if l.head? = some '-' then l.tail else l
  let mantissa := l.takeWhile (fun c => c ≠ 'e' && c ≠ 'E')
  mantissa.all (fun c => c = '0' || c = '.')

/-- JavaScript truthiness. -/
def truthy : JsValue → Bool
  | .undefined => false
  | .null => false
  | .bool b => b
  | .num lex => !isZeroLex lex
  | .str s => s ≠ []
  | .arr _ => true
  | .obj _ => true

/-- JS `a || b`. -/
def jsOr (a b : JsValue) : JsValue := if truthy a then a else b

/-- JS `x && typeof x === "object"`: exactly objects and arrays pass
(`null` is falsy, primitives have a different `typeof`). -/
def isTruthyObject : JsValue → Bool
  | .obj _ => true
  | .arr _ => true
  | _ => false

/-- `cleanText` (services/gemini.ts): non-strings become the empty
string; strings are CRLF-normalized, NUL-stripped and trimmed. -/
def cleanText : JsValue → Str
  | .str s => cleanTextStr s
  | _ => []

/-- `asStringArray` (services/gemini.ts): arrays map through `cleanText`
and drop empties; strings split on newline runs, shed one bullet marker,
trim, and drop empties; anything else is the empty list. -/
def asStringArray : JsValue → List Str
  | .arr xs => (xs.map cleanText).filter (fun x => x ≠ [])
  | .str s => ((splitNLPlus s).map (fun x => jsTrim (stripBullet x))).filter (fun x => x ≠ [])
  | _ => []

/-! ## JSON.parse

A fuel-indexed recursive-descent parser for the JSON grammar, faithful to
`JSON.parse`: strict escapes, no trailing commas, control characters are
rejected inside strings, the whole input must be consumed up to trailing
JSON whitespace.  Fuel is instantiated with the input length plus one,
which every nesting or repetition step strictly consumes. -/

/-- JSON (RFC 8259) whitespace: space, tab, newline, carriage return. -/
def isJsonWs (c : Char) : Bool := c = ' ' || c = '\t' || c = '\n' || c = '\r'

def skipJWs (l : Str) : Str := l.dropWhile isJsonWs

/-- The numeric value of one hexadecimal digit (JSON `\uXXXX` escapes). -/
def hexVal (c : Char) : Option Nat :=
  let n := c.toNat
  if 48 ≤ n && n ≤ 57 then some (n - 48)
  else if 97 ≤ n && n ≤ 102 then some (n - 87)
  else if 65 ≤ n && n ≤ 70 then some (n - 55)
  else none

/-- The single-letter JSON string escapes. -/
def escChar : Char → Option Char
  | '"' => some '"'
  | '\\' => some '\\'
  | '/' => some '/'
  | 'b' => some '\x08'
  | 'f' => some '\x0c'
  | 'n' => some '\n'
  | 'r' => some '\r'
  | 't' => some '\t'
  | _ => none

/-- Body of a JSON string literal, after the opening quote; control
characters are rejected as `JSON.parse` does. -/
def parseStringBody : Str → Option (Str × Str)
  | [] => none
  | '"' :: rest => some ([], rest)
  | '\\' :: rest =>
    match rest with
    | 'u' :: h1 :: h2 :: h3 :: h4 :: r =>
      match hexVal h1, hexVal h2, hexVal h3, hexVal h4 with
      | some a, some b, some c, some d =>
        (parseStringBody r).map
          (fun p => (Char.ofNat (a * 4096 + b * 256 + c * 16 + d) :: p.1, p.2))
      | _, _, _, _ => none
    | e :: r =>
      match escChar e with
      | some ch => (parseStringBody r).map (fun p => (ch :: p.1, p.2))
      | none => none
    | [] => none
  | c :: rest =>
    if c.toNat < 0x20 then none
    else (parseStringBody rest).map (fun p => (c :: p.1, p.2))

/-- An ASCII decimal digit. -/
def isDigit (c : Char) : Bool := 48 ≤ c.toNat && c.toNat ≤ 57

/-- Optional exponent part of a JSON number; if malformed it is simply not
consumed (the stray characters then make the enclosing parse fail, exactly
as `JSON.parse` rejects the whole input). -/
def expPart (l : Str) : Str × Str :=
  match l with
  | e :: r =>
    if e = 'e' || e = 'E' then
      let (sgn, r1) := match r with
        | '+' :: r' => (['+'], r')
        | '-' :: r' => (['-'], r')
        | _ => (([] : Str), r)
      let ds := r1.takeWhile isDigit
      if ds = [] then ([], l) else ([e] ++ sgn ++ ds, r1.dropWhile isDigit)
    else ([], l)
  | [] => ([], l)

/-- A JSON number lexeme: `-? int frac? exp?`. -/
def parseNumber (l : Str) : Option (Str × Str) :=
  let (sign, l1) := match l with
    | '-' :: r => ((['-'] : Str), r)
    | _ => ([], l)
  let intPart := l1.takeWhile isDigit
  let l2 := l1.dropWhile isDigit
  if intPart = [] then none
  else if intPart.length > 1 && intPart.head? = some '0' then none
  else
    let (frac, l3) :=
      match l2 with
      | '.' :: r =>
        let ds := r.takeWhile isDigit
        if ds = [] then (([] : Str), '.' :: r) else ('.' :: ds, r.dropWhile isDigit)
      | _ => ([], l2)
    let (ex, l4) := expPart l3
    some (sign ++ intPart ++ frac ++ ex, l4)

/-- The three mutually recursive JSON parsers (value, required object
members, required array elements), tied through a fuel level. -/
structure JParsers where
  val : Str → Option (JsValue × Str)
  members : Str → Option (List (Str × JsValue) × Str)
  items : Str → Option (List JsValue × Str)

def jFail : JParsers :=
  ⟨fun _ => none, fun _ => none, fun _ => none⟩

/-- One level of the JSON grammar, delegating every recursive position to
the previous level. -/
def jstep (p : JParsers) : JParsers where
  val cs :=
    let cs := skipJWs cs
    match cs with
    | '{' :: r =>
      let r := skipJWs r
      match r with
      | '}' :: r' => some (.obj [], r')
      | _ =>
        match p.members r with
        | some (fs, r') => some (.obj fs, r')
        | none => none
    | '[' :: r =>
      let r := skipJWs r
      match r with
      | ']' :: r' => some (.arr [], r')
      | _ =>
        match p.items r with
        | some (xs, r') => some (.arr xs, r')
        | none => none
    | '"' :: r =>
      match parseStringBody r with
      | some (s, r') => some (.str s, r')
      | none => none
    | 't' :: 'r' :: 'u' :: 'e' :: r => some (.bool true, r)
    | 'f' :: 'a' :: 'l' :: 's' :: 'e' :: r => some (.bool false, r)
    | 'n' :: 'u' :: 'l' :: 'l' :: r => some (.null, r)
    | _ =>
      match parseNumber cs with
      | some (lex, r') => some (.num lex, r')
      | none => none
  members cs :=
    let cs := skipJWs cs
    match cs with
    | '"' :: r =>
      match parseStringBody r with
      | some (k, r1) =>
        match skipJWs r1 with
        | ':' :: r2 =>
          match p.val r2 with
          | some (v, r3) =>
            match skipJWs r3 with
            | ',' :: r4 =>
              match p.members r4 with
              | some (fs, r5) => some ((k, v) :: fs, r5)
              | none => none
            | '}' :: r4 => some ([(k, v)], r4)
            | _ => none
          | none => none
        | _ => none
      | none => none
    | _ => none
  items cs :=
    match p.val cs with
    | some (v, r1) =>
      match skipJWs r1 with
      | ',' :: r2 =>
        match p.items r2 with
        | some (xs, r3) => some (v :: xs, r3)
        | none => none
      | ']' :: r2 => some ([v], r2)
      | _ => none
    | none => none

def jiter : Nat → JParsers
  | 0 => jFail
  | n + 1 => jstep (jiter n)

/-- `JSON.parse` wrapped in try/catch (`tryParseJson` in the source):
`none` models a thrown-and-swallowed `SyntaxError`. -/
def tryParseJson (s : Str) : Option JsValue :=
  match (jiter (s.length + 1)).val s with
  | some (v, rest) => if skipJWs rest = [] then some v else none
  | none => none

/-- `looksLikeJsonBlob` (services/gemini.ts): the trimmed string starts
with `{` and ends with `}`, or starts with `[` and ends with `]`. -/
def looksLikeJsonBlob (s : Str) : Bool :=
  let t := jsTrim s
  (t.head? = some '{' && t.getLast? = some '}') ||
  (t.head? = some '[' && t.getLast? = some ']')

/-- Drop characters up to (and keeping) the first `{`; `none` if absent —
the `indexOf("{")` step of `extractJsonBlock`. -/
def dropToBrace : Str → Option Str
  | [] => none
  | c :: cs => if c = '{' then some (c :: cs) else dropToBrace cs

/-- The brace-depth walk of `extractJsonBlock`: accumulate characters,
adjusting depth at `{` / `}`, and return the accumulated slice the first
time the depth returns to zero. -/
def braceWalk : Int → Str → Str → Option Str
  | _, _, [] => none
  | d, acc, c :: cs =>
    let d' := if c = '{' then d + 1 else if c = '}' then d - 1 else d
    if d' = 0 then some (acc ++ [c])
    else braceWalk d' (acc ++ [c]) cs

/-- `extractJsonBlock` (services/gemini.ts): first plausible `{...}` block
by brace counting, starting at the first `{` of the trimmed input. -/
def extractJsonBlock (s : Str) : Option Str :=
  match dropToBrace (jsTrim s) with
  | none => none
  | some suf => braceWalk 0 [] suf

/-! ## The heading regex of `parseTextToSections`

`getBlock` matches, case-insensitively,
`(?:^|\n)\s*(?:###?\s*)?LABEL\s*:?\s*\n([\s\S]*?)(?=\n\s*(?:###?\s*)?(L1|…|L5)\s*:?\s*\n|$)`.
The backtracking matcher below implements exactly this pattern family:
`wsStar` is a greedy-with-backtracking `\s*`, `hashOpt` the optional
`###?\s*`, and the lazy capture stops at the first position where the
lookahead (or end of input) succeeds. -/

/-- Greedy `\s*`: consume as much whitespace as possible, backtracking one
character at a time when the continuation fails. -/
def wsStar {α : Type} (k : Str → Option α) : Str → Option α
  | [] => k []
  | c :: cs =>
    if isWs c then
      match wsStar k cs with
      | some r => some r
      | none => k (c :: cs)
    else k (c :: cs)

/-- A required final `\n`, returning the rest. -/
def nlHead : Str → Option Str
  | '\n' :: rest => some rest
  | _ => none

/-- Optional `(?:###?\s*)` with regex preference order: three hashes, then
two, then the option not taken. -/
def hashOpt {α : Type} (k : Str → Option α) : Str → Option α
  | '#' :: '#' :: '#' :: r =>
    match wsStar k r with
    | some a => some a
    | none =>
      match wsStar k ('#' :: r) with
      | some a => some a
      | none => k ('#' :: '#' :: '#' :: r)
  | '#' :: '#' :: r =>
    match wsStar k r with
    | some a => some a
    | none => k ('#' :: '#' :: r)
  | cs => k cs

/-- Case-insensitive literal match (flag `i`; the labels are ASCII). -/
def matchLitCI : Str → Str → Option Str
  | [], cs => some cs
  | _ :: _, [] => none
  | l :: ls, c :: cs => if l.toLower = c.toLower then matchLitCI ls cs else none

/-- `\s*:?\s*\n` after the label, in regex backtracking order (longest
first whitespace run, colon preferred present, longest second run). -/
def afterLabel : Str → Option Str :=
  wsStar fun r1 =>
    match r1 with
    | ':' :: r2 =>
      match wsStar nlHead r2 with
      | some a => some a
      | none => wsStar nlHead r1
    | _ => wsStar nlHead r1

/-- `\s*(?:###?\s*)?LABEL\s*:?\s*\n` at the current position (the part of
the heading pattern after the `(?:^|\n)` anchor); returns the suffix where
the capture group starts. -/
def introTail (label : Str) : Str → Option Str :=
  wsStar (hashOpt fun r2 =>
    match matchLitCI label r2 with
    | some r3 => afterLabel r3
    | none => none)

def lblSimple : Str := js ("Simple explanation")
def lblReal : Str := js ("Real-world example")
def lblKey : Str := js ("Key commands")
def lblCommon : Str := js ("Common mistakes")
def lblQuick : Str := js ("Quick check")

def theLabels : List Str := [lblSimple, lblReal, lblKey, lblCommon, lblQuick]

/-- The lookahead `(?=\n\s*(?:###?\s*)?(L1|…|L5)\s*:?\s*\n)`. -/
def lookaheadAt (cs : Str) : Bool :=
  match cs with
  | '\n' :: r => theLabels.any fun l => (introTail l r).isSome
  | _ => false

/-- The lazy capture `([\s\S]*?)`: extend until the lookahead or the end of
input succeeds. -/
def captureBlock : Str → Str
  | [] => []
  | c :: cs => if lookaheadAt (c :: cs) then [] else c :: captureBlock cs

/-- Scan for the leftmost `(?:^|\n)`-anchored heading match after the
start-of-string attempt failed. -/
def getBlockGo (label : Str) : Str → Str
  | [] => []
  | c :: cs =>
    if c = '\n' then
      match introTail label cs with
      | some j => jsTrim (captureBlock j)
      | none => getBlockGo label cs
    else getBlockGo label cs

/-- `getBlock` (services/gemini.ts): the trimmed first capture of the
heading regex, or the empty string when the regex does not match. -/
def getBlock (label t : Str) : Str :=
  match introTail label t with
  | some j => jsTrim (captureBlock j)
  | none => getBlockGo label t

/-! ## The tutor result and the normalizer -/

/-- `AiTutorResult` (services/gemini.ts): the fixed six-field shape. -/
structure AiTutorResult where
  title : Str
  simpleExplanation : Str
  realWorldExample : Str
  keyCommands : List Str
  commonMistakes : List Str
  quickCheck : List Str
deriving DecidableEq, Repr

/-- `normalizeResult` (services/gemini.ts).  Every call site passes string
fields and string-array fields, so the unknown-typed inputs are taken at
those types; `asStringArray` on a string array is `map cleanText` plus
dropping empties, inlined here. -/
def normalizeResult (ti se rwe : Str) (kc cm qc : List Str) (fb : Str) : AiTutorResult :=
  { title :=
      let t := cleanTextStr ti
      if t ≠ [] then t else if fb ≠ [] then fb else js ("AI Tutor")
    simpleExplanation := cleanTextStr se
    realWorldExample := cleanTextStr rwe
    keyCommands := (kc.map cleanTextStr).filter (fun x => x ≠ [])
    commonMistakes := (cm.map cleanTextStr).filter (fun x => x ≠ [])
    quickCheck := (qc.map cleanTextStr).filter (fun x => x ≠ []) }

/-- The string-splitting branch of `asStringArray`, as applied to the raw
heading blocks in `parseTextToSections`. -/
def asStringArrayStr (s : Str) : List Str :=
  ((splitNLPlus s).map (fun x => jsTrim (stripBullet x))).filter (fun x => x ≠ [])

/-- The heading-driven part of `parseTextToSections`, including the
graceful whole-text fallback when no section was recovered. -/
def headingParse (t fb : Str) : AiTutorResult :=
  let se := getBlock lblSimple t
  let ex := getBlock lblReal t
  let kc := getBlock lblKey t
  let cm := getBlock lblCommon t
  let qc := getBlock lblQuick t
  let out := normalizeResult fb se ex (asStringArrayStr kc) (asStringArrayStr cm)
    (asStringArrayStr qc) fb
  if out.simpleExplanation = [] && out.realWorldExample = [] &&
     out.keyCommands = [] && out.commonMistakes = [] && out.quickCheck = [] then
    normalizeResult fb t [] [] [] [] fb
  else out

/-- The `directJson` computed at the top of `parseTextToSections`. -/
def directJson (t : Str) : Option JsValue :=
  if looksLikeJsonBlob t then tryParseJson t else none

/-- The `hasEnough` acceptance test inside `normalizeFromAny`'s candidate
scan: a string `simpleExplanation` longer than 30 characters once trimmed,
plus at least one further structured field. -/
def hasEnough (parsed : JsValue) : Bool :=
  (match getField parsed (js ("simpleExplanation")) with
   | .str s => 30 < (jsTrim s).length
   | _ => false) &&
  ((match getField parsed (js ("realWorldExample")) with
    | .str _ => true
    | _ => false) ||
   (match getField parsed (js ("keyCommands")) with
    | .arr _ => true
    | _ => false) ||
   (match getField parsed (js ("commonMistakes")) with
    | .arr _ => true
    | _ => false) ||
   (match getField parsed (js ("quickCheck")) with
    | .arr _ => true
    | _ => false))

def objFields : JsValue → List (Str × JsValue)
  | .obj fs => fs
  | _ => []

/-- Object spread `{ ...a, ...b }` restricted to the looked-up names: later
fields win, which `lastField` realizes on the concatenated member list.
(Spreading a non-object contributes no named properties.) -/
def jsSpread (a b : JsValue) : JsValue := .obj (objFields a ++ objFields b)

/-- The body run once a candidate's JSON block passed `hasEnough`: merge
the parsed fields over the carrying object, normalize, and re-enter
`normalizeFromAny` (through `recur`) if the normalized explanation still
looks like a JSON blob. -/
def adoptResult (recur : JsValue → Str → AiTutorResult) (obj : JsValue) (fb : Str)
    (parsed : JsValue) : AiTutorResult :=
  let merged := jsSpread obj parsed
  let normalized := normalizeResult
    (cleanText (getField merged (js ("title"))))
    (cleanText (getField merged (js ("simpleExplanation"))))
    (cleanText (getField merged (js ("realWorldExample"))))
    (asStringArray (getField merged (js ("keyCommands"))))
    (asStringArray (getField merged (js ("commonMistakes"))))
    (asStringArray (getField merged (js ("quickCheck")))) fb
  if looksLikeJsonBlob normalized.simpleExplanation then
    match tryParseJson normalized.simpleExplanation with
    | some p => if isTruthyObject p then recur p fb else normalized
    | none => normalized
  else normalized

/-- One candidate of `normalizeFromAny`'s scan loop (`continue` is `none`). -/
def candTry (recur : JsValue → Str → AiTutorResult) (obj : JsValue) (fb c : Str) :
    Option AiTutorResult :=
  match (if looksLikeJsonBlob (jsTrim c) then some (jsTrim c)
         else extractJsonBlock (jsTrim c)) with
  | none => none
  | some jb =>
    match tryParseJson jb with
    | none => none
    | some parsed =>
      if isTruthyObject parsed then
        if hasEnough parsed then some (adoptResult recur obj fb parsed)
        else none
      else none

/-- The tail of `normalizeFromAny`: the plain structured read-out, plus the
big-text re-parse when the explanation stayed (nearly) empty.  `recurText`
is the re-entry into `parseTextToSections`. -/
def structuredTail (recurText : Str → Str → AiTutorResult) (obj : JsValue) (fb : Str) :
    AiTutorResult :=
  let normalized := normalizeResult
    (let t := cleanText (getField obj (js ("title"))); if t ≠ [] then t else fb)
    (cleanText (getField obj (js ("simpleExplanation"))))
    (cleanText (getField obj (js ("realWorldExample"))))
    (asStringArray (getField obj (js ("keyCommands"))))
    (asStringArray (getField obj (js ("commonMistakes"))))
    (asStringArray (getField obj (js ("quickCheck")))) fb
  let bigText := cleanText (jsOr (getField obj (js ("text")))
    (jsOr (getField obj (js ("raw"))) (.str [])))
  if (normalized.simpleExplanation = [] || normalized.simpleExplanation.length < 10) &&
     30 < bigText.length then
    recurText bigText fb
  else normalized

/-- The candidate string fields scanned by `normalizeFromAny`, in source
order, with falsy (empty) entries filtered out. -/
def candidatesOf (obj : JsValue) : List Str :=
  ([cleanText (getField obj (js ("simpleExplanation"))),
    cleanText (getField obj (js ("title"))),
    cleanText (getField obj (js ("raw"))),
    cleanText (getField obj (js ("text")))]).filter (fun x => x ≠ [])

/-- One level of `normalizeFromAny`, delegating recursive re-entries to the
previous level's pair of functions.  The first candidate whose embedded
JSON is accepted wins (`findSome?`); otherwise the structured tail runs. -/
def normalizeAnyStep (prevAny : JsValue → Str → AiTutorResult)
    (prevText : Str → Str → AiTutorResult) (anyObj : JsValue) (fb : Str) : AiTutorResult :=
  let obj := orUndef (getField anyObj (js ("data")))
    (orUndef (getField anyObj (js ("result"))) anyObj)
  match obj with
  | .str s => prevText s fb
  | _ =>
    (List.findSome? (candTry prevAny obj fb) (candidatesOf obj)).getD
      (structuredTail prevText obj fb)

/-- One level of `parseTextToSections`. -/
def parseTextStep (prevAny : JsValue → Str → AiTutorResult) (text fb : Str) : AiTutorResult :=
  let t := jsTrim (normNL text)
  match directJson t with
  | some v => if isTruthyObject v then prevAny v fb else headingParse t fb
  | none => headingParse t fb

/-- Fuel-exhaustion result (never reached for fuel larger than the nesting
depth of the input, which each re-entry through `JSON.parse` strictly
shrinks). -/
def defaultResult (fb : Str) : AiTutorResult := normalizeResult fb [] [] [] [] [] fb

/-- The fuel-indexed pair (`normalizeFromAny`, `parseTextToSections`). -/
def normFuns : Nat → ((JsValue → Str → AiTutorResult) × (Str → Str → AiTutorResult))
  | 0 => (fun _ fb => defaultResult fb, fun _ fb => defaultResult fb)
  | n + 1 =>
    let prev := normFuns n
    (fun v fb => normalizeAnyStep prev.1 prev.2 v fb,
     fun t fb => parseTextStep prev.1 t fb)

/-- `normalizeFromAny` (services/gemini.ts) at a given fuel level. -/
def normalizeFromAny (fuel : Nat) (v : JsValue) (fb : Str) : AiTutorResult :=
  (normFuns fuel).1 v fb

/-- `parseTextToSections` (services/gemini.ts) at a given fuel level. -/
def parseTextToSections (fuel : Nat) (text fb : Str) : AiTutorResult :=
  (normFuns fuel).2 text fb

/-! ## api/gemini.ts: `normalizeTutorJSON` and the client-side final fill -/

def joinCommas : List Str → Str
  | [] => []
  | [x] => x
  | x :: xs => x ++ ',' :: joinCommas xs

/-- JS `String(x)` conversion; only nested arrays recurse, bounded by fuel
(inside an array join, `null` and `undefined` render as the empty
string). -/
def jsToStringF : Nat → JsValue → Str
  | _, .str s => s
  | _, .num lex => lex
  | _, .bool true => js ("true")
  | _, .bool false => js ("false")
  | _, .null => js ("null")
  | _, .undefined => js ("undefined")
  | _, .obj _ => js ("[object Object]")
  | 0, .arr _ => []
  | fuel + 1, .arr xs =>
    joinCommas (xs.map fun x =>
      match x with
      | .null => []
      | .undefined => []
      | y => jsToStringF fuel y)

/-- JS `String(x)`.  The fixed fuel covers any array nesting the pipeline
can ever see (it is consumed only by strictly nested arrays). -/
def jsToString (v : JsValue) : Str := jsToStringF 1000 v

/-- `normalizeTutorJSON` (api/gemini.ts). -/
def normalizeTutorJSON (obj : JsValue) : AiTutorResult :=
  { title :=
      let t := jsTrim (jsToString (orUndef (getField obj (js ("title"))) (.str [])))
      if t ≠ [] then t else js ("AI Tutor")
    simpleExplanation :=
      jsTrim (jsToString (orUndef (getField obj (js ("simpleExplanation"))) (.str [])))
    realWorldExample :=
      jsTrim (jsToString (orUndef (getField obj (js ("realWorldExample"))) (.str [])))
    keyCommands :=
      match getField obj (js ("keyCommands")) with
      | .arr xs => (xs.map jsToString).filter (fun x => x ≠ [])
      | _ => []
    commonMistakes :=
      match getField obj (js ("commonMistakes")) with
      | .arr xs => (xs.map jsToString).filter (fun x => x ≠ [])
      | _ => []
    quickCheck :=
      match getField obj (js ("quickCheck")) with
      | .arr xs => (xs.map jsToString).filter (fun x => x ≠ [])
      | _ => [] }

/-- The "final safety" fill of `explainConcept` (services/gemini.ts):
blank string fields receive placeholders (`x || []` on the list fields is
the identity, arrays being truthy). -/
def finalOut (normalized : AiTutorResult) (concept : Str) : AiTutorResult :=
  { title :=
      if normalized.title ≠ [] then normalized.title
      else if concept ≠ [] then concept else js ("AI Tutor")
    simpleExplanation :=
      if normalized.simpleExplanation ≠ [] then normalized.simpleExplanation else js ("—")
    realWorldExample :=
      if normalized.realWorldExample ≠ [] then normalized.realWorldExample else js ("—")
    keyCommands := normalized.keyCommands
    commonMistakes := normalized.commonMistakes
    quickCheck := normalized.quickCheck }

/-! ## The outbound prompt of `explainConcept` (services/gemini.ts) -/

def promptA : Str := js ("\nYou are a CCNA tutor. Be clear, natural, and practical.\n\nCONCEPT: ")

def promptB : Str := js ("\n\n")

def ctxHdr : Str := js ("ANSWER CONTEXT:\n")

def promptC : Str := js ("\n\nReturn STRICT JSON ONLY with this exact shape:\n\x7b\n  \"title\": \"string\",\n  \"simpleExplanation\": \"string\",\n  \"realWorldExample\": \"string\",\n  \"keyCommands\": [\"string\"],\n  \"commonMistakes\": [\"string\"],\n  \"quickCheck\": [\"string\"]\n\x7d\n\nRules:\n- Each string must be plain text (no markdown headings).\n- keyCommands/commonMistakes/quickCheck must be arrays (empty array if none).\n- quickCheck: 2–4 short Q&A bullets like \"Q: ... A: ...\"\n")

/-- The template-literal prompt of `explainConcept`: the answer context is
interpolated verbatim (conditionally on its truthiness), then the whole
template is trimmed. -/
def buildPrompt (concept answerContext : Str) : Str :=
  jsTrim (promptA ++ concept ++ promptB ++
    (if answerContext ≠ [] then ctxHdr ++ answerContext ++ js ("\n") else []) ++ promptC)

/-! ## api/pro-status.ts: the two auto-continue loops -/

/-- A mocked upstream generation response: HTTP status, extracted text,
finish reason. -/
structure GenOut where
  status : Nat
  text : Str
  finishReason : Option Str
deriving DecidableEq, Repr

def maxTokens : Str := js ("MAX_TOKENS")

/-- JS `String(out.status).startsWith("2")`. -/
def is2xx (n : Nat) : Bool := (js (Nat.repr n)).head? = some '2'

/-- The seam of the `while` variant: `if (!fullText.endsWith("\n"))
fullText += "\n"; fullText += more`. -/
def seamAppend (ft more : Str) : Str :=
  (if ft.getLast? = some '\n' then ft else ft ++ ['\n']) ++ more

/-- The `while`-loop auto-continue (the revision with `safetyCounter`):
given the state after the primary call and the list of mocked continuation
responses, returns the accumulated text and the number of continuation
calls issued.  An exhausted mock list ends the loop with no further call
(in the modelled runs the list is always long enough). -/
def whileLoop (ft : Str) (fr : Option Str) (counter : Nat) : List GenOut → Str × Nat
  | [] => (ft, 0)
  | o :: rest =>
    if fr = some maxTokens && counter < 2 then
      if !is2xx o.status then (ft, 1)
      else
        let more := jsTrim o.text
        if more = [] then (ft, 1)
        else
          let p := whileLoop (seamAppend ft more) o.finishReason (counter + 1) rest
          (p.1, p.2 + 1)
    else (ft, 0)

/-- Entry point of the `while` variant: primary response, then the loop. -/
def autoContinueWhile (out0 : GenOut) (conts : List GenOut) : Str × Nat :=
  whileLoop out0.text out0.finishReason 0 conts

/-- The `for`-loop auto-continue (the revision with
`text = text + "\n\n" + more`): continuation text is appended untrimmed
after a blank line; the loop additionally requires the accumulated text to
be non-blank. -/
def forLoop (text : Str) (fr : Option Str) (i : Nat) : List GenOut → Str × Nat
  | [] => (text, 0)
  | o :: rest =>
    if i < 2 && fr = some maxTokens && jsTrim text ≠ [] then
      if !is2xx o.status then (text, 1)
      else
        let more := o.text
        if jsTrim more = [] then (text, 1)
        else
          let p := forLoop (text ++ js ("\n\n") ++ more) o.finishReason (i + 1) rest
          (p.1, p.2 + 1)
    else (text, 0)

def autoContinueFor (out0 : GenOut) (conts : List GenOut) : Str × Nat :=
  forLoop out0.text out0.finishReason 0 conts

/-! ## The server-side response cache (src/unnamed/part_000) -/

/-- A cache entry: stored value plus absolute expiry timestamp. -/
structure CacheEntry (α : Type) where
  value : α
  expiresAt : Nat
deriving DecidableEq, Repr

/-- The in-memory `Map` as an association list (keys unique in every state
reachable through `cacheSet`). -/
abbrev CacheMap (α : Type) := List (Str × CacheEntry α)

/-- `Map.prototype.get`. -/
def mapGet {α : Type} : CacheMap α → Str → Option (CacheEntry α)
  | [], _ => none
  | (k', e) :: rest, k => if k' = k then some e else mapGet rest k

/-- `Map.prototype.set`: update in place or append. -/
def mapSet {α : Type} : CacheMap α → Str → CacheEntry α → CacheMap α
  | [], k, e => [(k, e)]
  | (k', e') :: rest, k, e =>
    if k' = k then (k, e) :: rest else (k', e') :: mapSet rest k e

/-- `Map.prototype.delete`. -/
def mapDelete {α : Type} : CacheMap α → Str → CacheMap α
  | [], _ => []
  | (k', e') :: rest, k => if k' = k then rest else (k', e') :: mapDelete rest k

/-- `CACHE_TTL_MS` of the server cache: 24 hours. -/
def CACHE_TTL_MS : Nat := 1000 * 60 * 60 * 24

/-- `cacheGet` (src/unnamed/part_000): a hit past its expiry is deleted and
reported as a miss; the new map state is returned alongside. -/
def cacheGet {α : Type} (m : CacheMap α) (k : Str) (now : Nat) : Option α × CacheMap α :=
  match mapGet m k with
  | none => (none, m)
  | some hit =>
    if hit.expiresAt < now then (none, mapDelete m k) else (some hit.value, m)

/-- `cacheSet` (src/unnamed/part_000): store with expiry `now + TTL`. -/
def cacheSet {α : Type} (m : CacheMap α) (k : Str) (v : α) (now : Nat) : CacheMap α :=
  mapSet m k ⟨v, now + CACHE_TTL_MS⟩

/-! ## The delivered six-field shape, as a dynamic value -/

/-- Render a tutor result back as the JavaScript object handed to the
display layer. -/
def toJs (r : AiTutorResult) : JsValue :=
  .obj [(js ("title"), .str r.title),
        (js ("simpleExplanation"), .str r.simpleExplanation),
        (js ("realWorldExample"), .str r.realWorldExample),
        (js ("keyCommands"), .arr (r.keyCommands.map .str)),
        (js ("commonMistakes"), .arr (r.commonMistakes.map .str)),
        (js ("quickCheck"), .arr (r.quickCheck.map .str))]

def isStrVal : JsValue → Bool
  | .str _ => true
  | _ => false

/-- The exact six-key shape with string fields and string-array fields. -/
def sixFieldShape : JsValue → Bool
  | .obj [(k1, .str _), (k2, .str _), (k3, .str _), (k4, .arr kc), (k5, .arr cm), (k6, .arr qc)] =>
    k1 = js ("title") && k2 = js ("simpleExplanation") && k3 = js ("realWorldExample") &&
    k4 = js ("keyCommands") && k5 = js ("commonMistakes") && k6 = js ("quickCheck") &&
    kc.all isStrVal && cm.all isStrVal && qc.all isStrVal
  | _ => false

/-! ## Helper lemmas -/

lemma all_isStrVal_map (l : List Str) : (l.map JsValue.str).all isStrVal = true := by
  induction l with
  | nil => rfl
  | cons x xs ih => simp [isStrVal, ih]

lemma sixFieldShape_toJs (r : AiTutorResult) : sixFieldShape (toJs r) = true := by
  simp [sixFieldShape, toJs, all_isStrVal_map]

lemma mapGet_set_self {α : Type} (m : CacheMap α) (k : Str) (e : CacheEntry α) :
    mapGet (mapSet m k e) k = some e := by
  induction m with
  | nil => simp [mapSet, mapGet]
  | cons p rest ih =>
    obtain ⟨k', e'⟩ := p
    by_cases h : k' = k <;> simp [mapSet, mapGet, h, ih]

lemma mapGet_none_of_not_mem {α : Type} (m : CacheMap α) (k : Str)
    (h : k ∉ m.map Prod.fst) : mapGet m k = none := by
  induction m with
  | nil => rfl
  | cons p rest ih =>
    obtain ⟨k', e'⟩ := p
    simp only [List.map_cons, List.mem_cons] at h
    push_neg at h
    simp [mapGet, Ne.symm h.1, ih h.2]

lemma mapGet_delete_self {α : Type} (m : CacheMap α) (k : Str)
    (h : (m.map Prod.fst).Nodup) : mapGet (mapDelete m k) k = none := by
  induction m with
  | nil => rfl
  | cons p rest ih =>
    obtain ⟨k', e'⟩ := p
    simp only [List.map_cons, List.nodup_cons] at h
    by_cases hk : k' = k
    · subst hk
      simp [mapDelete, mapGet_none_of_not_mem rest k' h.1]
    · simp [mapDelete, hk, mapGet, ih h.2]

lemma mapGet_delete_ne {α : Type} (m : CacheMap α) (k k' : Str) (h : k' ≠ k) :
    mapGet (mapDelete m k) k' = mapGet m k' := by
  induction m with
  | nil => rfl
  | cons p rest ih =>
    obtain ⟨k₀, e₀⟩ := p
    by_cases hk : k₀ = k
    · subst hk
      have hne : ¬ k₀ = k' := fun hh => h hh.symm
      simp [mapDelete, mapGet, hne]
    · simp [mapDelete, hk, mapGet, ih]

/-! ## C1 -/

/-- C1: for every input value (raw text, partially structured object, or
value with missing fields), the normalizer is a total function whose
result, delivered as a JavaScript object, has exactly the six fields
`title`/`simpleExplanation`/`realWorldExample` as strings and
`keyCommands`/`commonMistakes`/`quickCheck` as arrays of strings — at
every fuel level, for both entry points, with no exception path in the
embedding. -/
theorem c1_normalizer_total_and_typed :
    ∀ (fuel : Nat) (v : JsValue) (text fb : Str),
      sixFieldShape (toJs (normalizeFromAny fuel v fb)) = true ∧
      sixFieldShape (toJs (parseTextToSections fuel text fb)) = true := by
  intro fuel v text fb
  exact ⟨sixFieldShape_toJs _, sixFieldShape_toJs _⟩

/-! ## C6 -/

/-- The raw text of the worked example. -/
def ospfRaw : Str :=
  js ("Simple explanation:\nOSPF is a link-state protocol.\n\nReal-world example:\nUsed in enterprise backbones.")

set_option maxRecDepth 100000 in
/-- C6: on the OSPF example text the heading parser puts exactly the first
labeled section into `simpleExplanation`, exactly the second into
`realWorldExample`, and leaves the three list fields empty. -/
theorem c6_ospf_example :
    (parseTextToSections 1 ospfRaw (js ("OSPF"))).simpleExplanation =
      js ("OSPF is a link-state protocol.") ∧
    (parseTextToSections 1 ospfRaw (js ("OSPF"))).realWorldExample =
      js ("Used in enterprise backbones.") ∧
    (parseTextToSections 1 ospfRaw (js ("OSPF"))).keyCommands = [] ∧
    (parseTextToSections 1 ospfRaw (js ("OSPF"))).commonMistakes = [] ∧
    (parseTextToSections 1 ospfRaw (js ("OSPF"))).quickCheck = [] := by
  refine ⟨?_, ?_, ?_, ?_, ?_⟩ <;> decide

/-! ## C3 -/

/-- C3: after `cacheSet` on a key, a `cacheGet` at or before the expiry
instant returns exactly the stored value, and a `cacheGet` after the
time-to-live has elapsed reports a miss. -/
theorem c3_cache_ttl :
    ∀ (α : Type) (m : CacheMap α) (k : Str) (v : α) (tSet tGet : Nat),
      (tGet ≤ tSet + CACHE_TTL_MS →
        (cacheGet (cacheSet m k v tSet) k tGet).1 = some v) ∧
      (tSet + CACHE_TTL_MS < tGet →
        (cacheGet (cacheSet m k v tSet) k tGet).1 = none) := by
  intro α m k v tSet tGet
  constructor
  · intro h
    simp [cacheGet, cacheSet, mapGet_set_self, Nat.not_lt.mpr h]
  · intro h
    simp [cacheGet, cacheSet, mapGet_set_self, h]

/-- Witness for C3 at a concrete key, value and pair of timestamps. -/
theorem c3_cache_ttl_witness :
    (cacheGet (cacheSet ([] : CacheMap Nat) (js ("m||p")) 7 0) (js ("m||p")) 1000).1 =
      some 7 ∧
    (cacheGet (cacheSet ([] : CacheMap Nat) (js ("m||p")) 7 0) (js ("m||p")) 86400001).1 =
      none :=
  ⟨(c3_cache_ttl Nat [] (js ("m||p")) 7 0 1000).1 (by decide),
   (c3_cache_ttl Nat [] (js ("m||p")) 7 0 86400001).2 (by decide)⟩

/-! ## C10 -/

/-- C10: a cache lookup is not read-only — after `cacheGet` on key `k`, no
expired entry for `k` remains in the returned map state (the expired hit
is deleted before the miss is reported), while entries under every other
key are untouched. -/
theorem c10_cache_get_deletes_expired :
    ∀ (α : Type) (m : CacheMap α) (k k' : Str) (now : Nat),
      (m.map Prod.fst).Nodup →
      (∀ e, mapGet (cacheGet m k now).2 k = some e → ¬ e.expiresAt < now) ∧
      (k' ≠ k → mapGet (cacheGet m k now).2 k' = mapGet m k') := by
  intro α m k k' now hnd
  cases hf : mapGet m k with
  | none =>
    constructor
    · intro e he
      rw [show (cacheGet m k now).2 = m by simp [cacheGet, hf]] at he
      rw [hf] at he
      exact Option.noConfusion he
    · intro _
      simp [cacheGet, hf]
  | some hit =>
    by_cases hx : hit.expiresAt < now
    · constructor
      · intro e he
        rw [show (cacheGet m k now).2 = mapDelete m k by simp [cacheGet, hf, hx]] at he
        rw [mapGet_delete_self m k hnd] at he
        exact Option.noConfusion he
      · intro hne
        rw [show (cacheGet m k now).2 = mapDelete m k by simp [cacheGet, hf, hx]]
        exact mapGet_delete_ne m k k' hne
    · constructor
      · intro e he
        rw [show (cacheGet m k now).2 = m by simp [cacheGet, hf, hx]] at he
        rw [hf] at he
        cases he
        exact hx
      · intro _
        simp [cacheGet, hf, hx]

/-- Witness for C10 on a concrete two-entry cache holding one expired
entry. -/
theorem c10_cache_get_deletes_expired_witness :
    (∀ e, mapGet (cacheGet [((js ("a")), ⟨3, 10⟩), ((js ("b")), ⟨4, 999⟩)]
        (js ("a")) 50).2 (js ("a")) = some e → ¬ e.expiresAt < 50) ∧
    mapGet (cacheGet [((js ("a")), (⟨3, 10⟩ : CacheEntry Nat)), ((js ("b")), ⟨4, 999⟩)]
        (js ("a")) 50).2 (js ("b")) =
      mapGet [((js ("a")), (⟨3, 10⟩ : CacheEntry Nat)), ((js ("b")), ⟨4, 999⟩)] (js ("b")) :=
  ⟨(c10_cache_get_deletes_expired Nat _ (js ("a")) (js ("b")) 50 (by decide)).1,
   (c10_cache_get_deletes_expired Nat _ (js ("a")) (js ("b")) 50 (by decide)).2 (by decide)⟩

/-! ## C2: the auto-continue loops -/

lemma dropWhile_head_not_ws :
    ∀ (l : Str) (c : Char) (cs : Str), l.dropWhile isWs = c :: cs → isWs c = false := by
  intro l
  induction l with
  | nil => intro c cs h; exact absurd h (by simp)
  | cons a as ih =>
    intro c cs h
    by_cases ha : isWs a
    · rw [List.dropWhile_cons_of_pos ha] at h
      exact ih c cs h
    · rw [List.dropWhile_cons_of_neg ha] at h
      cases h
      simpa using ha

lemma rstripWs_head (x : Str) (c : Char) (cs : Str) (h : rstripWs x = c :: cs) :
    ∃ cs', x = c :: cs' := by
  cases x with
  | nil => exact absurd h (by simp [rstripWs])
  | cons a as =>
    refine ⟨as, ?_⟩
    rw [rstripWs] at h
    cases hr : rstripWs as with
    | nil =>
      rw [hr] at h
      cases hw : isWs a
      · rw [hw] at h
        simp at h
        rw [h.1]
      · rw [hw] at h
        simp at h
    | cons r rs =>
      rw [hr] at h
      cases hw : isWs a <;> rw [hw] at h <;> simp at h <;> rw [h.1]

lemma jsTrim_head_not_ws (m : Str) (c : Char) (cs : Str) (h : jsTrim m = c :: cs) :
    isWs c = false := by
  unfold jsTrim at h
  obtain ⟨cs', h'⟩ := rstripWs_head _ _ _ h
  exact dropWhile_head_not_ws m c cs' h'

lemma rstripWs_eq_nil_iff (l : Str) : rstripWs l = [] ↔ l.all isWs := by
  induction l with
  | nil => simp [rstripWs]
  | cons a as ih =>
    rw [rstripWs]
    cases hr : rstripWs as with
    | nil =>
      cases hw : isWs a
      · simp [hw]
      · simp [hw, ih.mp hr]
    | cons r rs =>
      have hall : as.all isWs = false := by
        cases hh : as.all isWs
        · rfl
        · rw [ih.mpr hh] at hr
          exact List.noConfusion hr
      cases hw : isWs a <;> simp [hw, hall]

lemma jsTrim_eq_nil_iff (l : Str) : jsTrim l = [] ↔ l.all isWs := by
  unfold jsTrim
  rw [rstripWs_eq_nil_iff]
  constructor
  · intro h
    refine List.all_eq_true.mpr (fun x hx => ?_)
    rw [← List.takeWhile_append_dropWhile (p := isWs) (l := l)] at hx
    rcases List.mem_append.mp hx with h1 | h2
    · exact List.mem_takeWhile_imp h1
    · exact List.all_eq_true.mp h x h2
  · intro h
    refine List.all_eq_true.mpr (fun x hx => ?_)
    exact List.all_eq_true.mp h x (List.dropWhile_subset _ hx)

lemma jsTrim_append_ne_nil (a b c : Str) (h : jsTrim b ≠ []) :
    jsTrim (a ++ b ++ c) ≠ [] := by
  intro hall
  rw [jsTrim_eq_nil_iff] at hall
  apply h
  rw [jsTrim_eq_nil_iff]
  simp only [List.all_append, Bool.and_eq_true] at hall
  exact hall.1.2

set_option maxRecDepth 10000 in
/-- C2 (amended): in both auto-continue revisions, when the first `N`
(`N ≤ 2`) upstream responses carry finish reason `MAX_TOKENS` and the
`(N+1)`th does not, the handler issues exactly `N` continuation calls and
stops early on a non-2xx or blank continuation.  The `while` revision
concatenates trimmed chunks with at most one inserted newline and no
duplicated leading whitespace; the `for` revision instead inserts a blank
line (`"\n\n"`) between chunks and appends the continuation text
untrimmed. -/
theorem c2_auto_continue_amended :
    (∀ (out0 c1 c2 : GenOut) (N : Nat), N ≤ 2 →
       (∀ i, i < N → ([out0, c1, c2].getD i out0).finishReason = some maxTokens) →
       ([out0, c1, c2].getD N out0).finishReason ≠ some maxTokens →
       (∀ i, 1 ≤ i → i ≤ N →
         is2xx ([out0, c1, c2].getD i out0).status = true ∧
         jsTrim ([out0, c1, c2].getD i out0).text ≠ []) →
       (autoContinueWhile out0 [c1, c2]).2 = N) ∧
    (∀ (out0 c1 c2 : GenOut), out0.finishReason = some maxTokens →
       is2xx c1.status = false →
       autoContinueWhile out0 [c1, c2] = (out0.text, 1)) ∧
    (∀ (out0 c1 c2 : GenOut), out0.finishReason = some maxTokens →
       is2xx c1.status = true → jsTrim c1.text = [] →
       autoContinueWhile out0 [c1, c2] = (out0.text, 1)) ∧
    (∀ ft more : Str,
       seamAppend ft more =
         ft ++ (if ft.getLast? = some '\n' then [] else ['\n']) ++ more) ∧
    (∀ (m : Str) (c : Char) (cs : Str), jsTrim m = c :: cs → isWs c = false) ∧
    (∀ (out0 c1 c2 : GenOut) (N : Nat), N ≤ 2 → jsTrim out0.text ≠ [] →
       (∀ i, i < N → ([out0, c1, c2].getD i out0).finishReason = some maxTokens) →
       ([out0, c1, c2].getD N out0).finishReason ≠ some maxTokens →
       (∀ i, 1 ≤ i → i ≤ N →
         is2xx ([out0, c1, c2].getD i out0).status = true ∧
         jsTrim ([out0, c1, c2].getD i out0).text ≠ []) →
       (autoContinueFor out0 [c1, c2]).2 = N) ∧
    (∀ (t : Str) (o : GenOut) (rest : List GenOut) (i : Nat),
       i < 2 → jsTrim t ≠ [] → is2xx o.status = true → jsTrim o.text ≠ [] →
       forLoop t (some maxTokens) i (o :: rest) =
         ((forLoop (t ++ js ("\n\n") ++ o.text) o.finishReason (i + 1) rest).1,
          (forLoop (t ++ js ("\n\n") ++ o.text) o.finishReason (i + 1) rest).2 + 1)) := by
  refine ⟨?_, ?_, ?_, ?_, ?_, ?_, ?_⟩
  · -- while-loop: exactly N continuation calls
    intro out0 c1 c2 N hN h1 h2 h3
    interval_cases N
    · simp only [List.getD] at h2
      simp at h2
      simp [autoContinueWhile, whileLoop, h2]
    · have e0 := h1 0 (by norm_num)
      have e1 := h3 1 (by norm_num) (by norm_num)
      simp only [List.getD] at e0 e1 h2
      simp at e0 e1 h2
      simp [autoContinueWhile, whileLoop, e0, e1.1, e1.2, h2]
    · have e0 := h1 0 (by norm_num)
      have e1' := h1 1 (by norm_num)
      have e1 := h3 1 (by norm_num) (by norm_num)
      have e2 := h3 2 (by norm_num) (by norm_num)
      simp only [List.getD] at e0 e1 e1' e2 h2
      simp at e0 e1 e1' e2 h2
      simp [autoContinueWhile, whileLoop, e0, e1.1, e1.2, e1', e2.1, e2.2]
  · -- early stop: non-2xx continuation
    intro out0 c1 c2 h0 hbad
    simp [autoContinueWhile, whileLoop, h0, hbad]
  · -- early stop: blank continuation
    intro out0 c1 c2 h0 hok hblank
    simp [autoContinueWhile, whileLoop, h0, hok, hblank]
  · -- while-loop seam shape
    intro ft more
    by_cases h : ft.getLast? = some '\n' <;> simp [seamAppend, h]
  · -- trimmed chunks have no leading whitespace
    exact jsTrim_head_not_ws
  · -- for-loop: exactly N continuation calls
    intro out0 c1 c2 N hN ht h1 h2 h3
    interval_cases N
    · simp only [List.getD] at h2
      simp at h2
      simp [autoContinueFor, forLoop, h2]
    · have e0 := h1 0 (by norm_num)
      have e1 := h3 1 (by norm_num) (by norm_num)
      simp only [List.getD] at e0 e1 h2
      simp at e0 e1 h2
      simp [autoContinueFor, forLoop, e0, e1.1, e1.2, h2, ht]
    · have e0 := h1 0 (by norm_num)
      have e1' := h1 1 (by norm_num)
      have e1 := h3 1 (by norm_num) (by norm_num)
      have e2 := h3 2 (by norm_num) (by norm_num)
      simp only [List.getD] at e0 e1 e1' e2 h2
      simp at e0 e1 e1' e2 h2
      have ht1 : jsTrim (out0.text ++ (js ("\n\n") ++ c1.text)) ≠ [] := by
        intro hx
        rw [jsTrim_eq_nil_iff] at hx
        apply e1.2
        rw [jsTrim_eq_nil_iff]
        simp only [List.all_append, Bool.and_eq_true] at hx
        exact hx.2.2
      simp [autoContinueFor, forLoop, e0, e1.1, e1.2, e1', e2.1, e2.2, ht, ht1]
  · -- for-loop seam: blank line inserted, chunk untrimmed
    intro t o rest i hi ht hok hne
    rw [forLoop]
    simp [hi, ht, hok, hne]

/-- Counterexample to C2 as stated: with one truncated primary response
(text `"A"`) and one continuation returning `" B"`, the `for`-loop
revision accumulates `"A\n\n B"` — two inserted newlines and the chunk's
leading space retained — while the `while` revision yields `"A\nB"`. -/
theorem c2_auto_continue_counterexample :
    autoContinueFor ⟨200, js ("A"), some maxTokens⟩ [⟨200, js (" B"), none⟩] =
      (js ("A\n\n B"), 1) ∧
    autoContinueWhile ⟨200, js ("A"), some maxTokens⟩ [⟨200, js (" B"), none⟩] =
      (js ("A\nB"), 1) := by
  exact ⟨by decide, by decide⟩

/-- Witness for C2 (amended) at concrete response sequences. -/
theorem c2_auto_continue_amended_witness :
    (autoContinueWhile ⟨200, js ("A"), some maxTokens⟩
      [⟨200, js ("B"), some maxTokens⟩, ⟨200, js ("C"), some (js ("STOP"))⟩]).2 = 2 ∧
    autoContinueWhile ⟨200, js ("A"), some maxTokens⟩
      [⟨500, js ("B"), none⟩, ⟨200, js ("C"), none⟩] = (js ("A"), 1) ∧
    (autoContinueFor ⟨200, js ("A"), some maxTokens⟩
      [⟨200, js ("B"), some maxTokens⟩, ⟨200, js ("C"), some (js ("STOP"))⟩]).2 = 2 :=
  ⟨c2_auto_continue_amended.1 _ _ _ 2 (by norm_num)
      (fun i hi => by interval_cases i <;> rfl)
      (by decide)
      (fun i h1 h2 => by interval_cases i <;> exact ⟨by decide, by decide⟩),
   c2_auto_continue_amended.2.1 _ _ ⟨200, js ("C"), none⟩ rfl (by decide),
   c2_auto_continue_amended.2.2.2.2.2.1 _ _ _ 2 (by norm_num) (by decide)
      (fun i hi => by interval_cases i <;> rfl)
      (by decide)
      (fun i h1 h2 => by interval_cases i <;> exact ⟨by decide, by decide⟩)⟩

/-! ## C7: whole-text fallback -/

/-- C7: when the trimmed raw text is not recoverable as a (truthy) JSON
object and none of the five heading labels matches, the normalizer places
the entire (cleaned) raw text into `simpleExplanation` and leaves the
other four content fields empty — the degraded result, never an
exception. -/
theorem c7_whole_text_fallback (fuel : Nat) (text fb : Str)
    (hJ : ∀ v, directJson (jsTrim (normNL text)) = some v → isTruthyObject v = false)
    (hB : ∀ l ∈ theLabels, getBlock l (jsTrim (normNL text)) = []) :
    (parseTextToSections (fuel + 1) text fb).simpleExplanation =
      cleanTextStr (jsTrim (normNL text)) ∧
    (parseTextToSections (fuel + 1) text fb).realWorldExample = [] ∧
    (parseTextToSections (fuel + 1) text fb).keyCommands = [] ∧
    (parseTextToSections (fuel + 1) text fb).commonMistakes = [] ∧
    (parseTextToSections (fuel + 1) text fb).quickCheck = [] := by
  have h1 : getBlock lblSimple (jsTrim (normNL text)) = [] := hB _ (by simp [theLabels])
  have h2 : getBlock lblReal (jsTrim (normNL text)) = [] := hB _ (by simp [theLabels])
  have h3 : getBlock lblKey (jsTrim (normNL text)) = [] := hB _ (by simp [theLabels])
  have h4 : getBlock lblCommon (jsTrim (normNL text)) = [] := hB _ (by simp [theLabels])
  have h5 : getBlock lblQuick (jsTrim (normNL text)) = [] := hB _ (by simp [theLabels])
  have hres : parseTextToSections (fuel + 1) text fb =
      headingParse (jsTrim (normNL text)) fb := by
    show parseTextStep (normFuns fuel).1 text fb = _
    cases hd : directJson (jsTrim (normNL text)) with
    | none => simp [parseTextStep, hd]
    | some v => simp [parseTextStep, hd, hJ v hd]
  have ha : asStringArrayStr ([] : Str) = [] := rfl
  have hc : cleanTextStr ([] : Str) = [] := rfl
  rw [hres]
  unfold headingParse
  rw [h1, h2, h3, h4, h5]
  simp [normalizeResult, ha, hc]

set_option maxRecDepth 100000 in
/-- Witness for C7 on the plain text `"hello world"`. -/
theorem c7_whole_text_fallback_witness :
    (parseTextToSections 1 (js ("hello world")) (js ("X"))).simpleExplanation =
      cleanTextStr (jsTrim (normNL (js ("hello world")))) ∧
    (parseTextToSections 1 (js ("hello world")) (js ("X"))).realWorldExample = [] ∧
    (parseTextToSections 1 (js ("hello world")) (js ("X"))).keyCommands = [] ∧
    (parseTextToSections 1 (js ("hello world")) (js ("X"))).commonMistakes = [] ∧
    (parseTextToSections 1 (js ("hello world")) (js ("X"))).quickCheck = [] :=
  c7_whole_text_fallback 0 (js ("hello world")) (js ("X"))
    (fun v h => by
      rw [show directJson (jsTrim (normNL (js ("hello world")))) = none from rfl] at h
      exact Option.noConfusion h)
    (fun l hl => by
      simp only [theLabels, List.mem_cons, List.not_mem_nil, or_false] at hl
      rcases hl with rfl | rfl | rfl | rfl | rfl <;> decide)

/-! ## C8: delivered defaults -/

def isArrVal : JsValue → Bool
  | .arr _ => true
  | _ => false

/-- C8 (amended): in the handler's `normalizeTutorJSON`, an unpopulated
explanation or example field is the empty string and an unpopulated list
field is the empty sequence, but an unpopulated title defaults to the
non-empty placeholder `"AI Tutor"`; the delivered object always carries
all six fields with their types (never null/undefined); and the client's
final fill replaces empty explanation/example fields with an em-dash
placeholder and an empty title with the concept. -/
theorem c8_defaults_amended :
    ∀ (obj : JsValue) (r : AiTutorResult) (concept : Str),
      (getField obj (js ("simpleExplanation")) = .undefined →
        (normalizeTutorJSON obj).simpleExplanation = []) ∧
      (getField obj (js ("realWorldExample")) = .undefined →
        (normalizeTutorJSON obj).realWorldExample = []) ∧
      (isArrVal (getField obj (js ("keyCommands"))) = false →
        (normalizeTutorJSON obj).keyCommands = []) ∧
      (isArrVal (getField obj (js ("commonMistakes"))) = false →
        (normalizeTutorJSON obj).commonMistakes = []) ∧
      (isArrVal (getField obj (js ("quickCheck"))) = false →
        (normalizeTutorJSON obj).quickCheck = []) ∧
      (getField obj (js ("title")) = .undefined →
        (normalizeTutorJSON obj).title = js ("AI Tutor")) ∧
      sixFieldShape (toJs (normalizeTutorJSON obj)) = true ∧
      (r.simpleExplanation = [] →
        (finalOut r concept).simpleExplanation = js ("—")) ∧
      (r.realWorldExample = [] →
        (finalOut r concept).realWorldExample = js ("—")) ∧
      (r.title = [] → concept ≠ [] → (finalOut r concept).title = concept) := by
  intro obj r concept
  refine ⟨?_, ?_, ?_, ?_, ?_, ?_, sixFieldShape_toJs _, ?_, ?_, ?_⟩
  · intro h
    simp [normalizeTutorJSON, h, orUndef, jsToString, jsToStringF, jsTrim, rstripWs]
  · intro h
    simp [normalizeTutorJSON, h, orUndef, jsToString, jsToStringF, jsTrim, rstripWs]
  · intro h
    cases hv : getField obj (js ("keyCommands")) <;>
      simp [hv, isArrVal] at h ⊢ <;> simp [normalizeTutorJSON, hv]
  · intro h
    cases hv : getField obj (js ("commonMistakes")) <;>
      simp [hv, isArrVal] at h ⊢ <;> simp [normalizeTutorJSON, hv]
  · intro h
    cases hv : getField obj (js ("quickCheck")) <;>
      simp [hv, isArrVal] at h ⊢ <;> simp [normalizeTutorJSON, hv]
  · intro h
    simp [normalizeTutorJSON, h, orUndef, jsToString, jsToStringF, jsTrim, rstripWs]
  · intro h
    simp [finalOut, h]
  · intro h
    simp [finalOut, h]
  · intro h hc
    simp [finalOut, h, hc]

/-- Counterexample to C8 as stated: on an upstream object with no usable
fields, the delivered title is the non-empty placeholder `"AI Tutor"`, and
the client's final fill delivers an em-dash, not the empty string. -/
theorem c8_defaults_counterexample :
    (normalizeTutorJSON (.obj [])).title = js ("AI Tutor") ∧
    js ("AI Tutor") ≠ ([] : Str) ∧
    (finalOut (normalizeTutorJSON (.obj [])) []).simpleExplanation = js ("—") ∧
    js ("—") ≠ ([] : Str) :=
  ⟨rfl, by decide, rfl, by decide⟩

/-- Witness for C8 (amended) on the empty upstream object. -/
theorem c8_defaults_amended_witness :
    (normalizeTutorJSON (.obj [])).simpleExplanation = [] ∧
    (normalizeTutorJSON (.obj [])).keyCommands = [] ∧
    (normalizeTutorJSON (.obj [])).title = js ("AI Tutor") ∧
    (finalOut ⟨[], [], [], [], [], []⟩ (js ("OSPF"))).title = js ("OSPF") :=
  ⟨(c8_defaults_amended (.obj []) ⟨[], [], [], [], [], []⟩ (js ("OSPF"))).1 rfl,
   (c8_defaults_amended (.obj []) ⟨[], [], [], [], [], []⟩ (js ("OSPF"))).2.2.1 rfl,
   (c8_defaults_amended (.obj []) ⟨[], [], [], [], [], []⟩ (js ("OSPF"))).2.2.2.2.2.1 rfl,
   (c8_defaults_amended (.obj []) ⟨[], [], [], [], [], []⟩
      (js ("OSPF"))).2.2.2.2.2.2.2.2.2 rfl (by decide)⟩

/-! ## C9: the context is embedded untruncated -/

/-- The prompt template after its leading newline. -/
def promptHead : Str :=
  js ("You are a CCNA tutor. Be clear, natural, and practical.\n\nCONCEPT: ")

/-- `promptHead` after its first character. -/
def promptTail : Str :=
  js ("ou are a CCNA tutor. Be clear, natural, and practical.\n\nCONCEPT: ")

lemma rstripWs_append (A B : Str) (hB : rstripWs B ≠ []) :
    rstripWs (A ++ B) = A ++ rstripWs B := by
  induction A with
  | nil => simp
  | cons a A' ih =>
    rw [List.cons_append, rstripWs, ih]
    cases hcons : A' ++ rstripWs B with
    | nil => exact absurd (List.append_eq_nil.mp hcons).2 hB
    | cons x xs =>
      cases hw : isWs a <;> simp [hcons]

set_option maxRecDepth 10000 in
/-- The built prompt, decomposed around the verbatim context. -/
lemma buildPrompt_decomp (c ctx : Str) (h : ctx ≠ []) :
    buildPrompt c ctx =
      promptHead ++ c ++ promptB ++ ctxHdr ++ ctx ++ js ("\n") ++ rstripWs promptC := by
  unfold buildPrompt jsTrim
  rw [if_pos h]
  have e1 : promptA ++ c ++ promptB ++ (ctxHdr ++ ctx ++ js ("\n")) ++ promptC =
      '\n' :: ((promptHead ++ c ++ promptB ++ ctxHdr ++ ctx ++ js ("\n")) ++ promptC) := by
    rw [show promptA = '\n' :: promptHead from rfl]
    simp [List.append_assoc]
  rw [e1, List.dropWhile_cons_of_pos (by decide)]
  have e2 : List.dropWhile isWs
        ((promptHead ++ c ++ promptB ++ ctxHdr ++ ctx ++ js ("\n")) ++ promptC) =
      (promptHead ++ c ++ promptB ++ ctxHdr ++ ctx ++ js ("\n")) ++ promptC := by
    have e3 : (promptHead ++ c ++ promptB ++ ctxHdr ++ ctx ++ js ("\n")) ++ promptC =
        'Y' :: (promptTail ++ (c ++ (promptB ++ (ctxHdr ++ (ctx ++ (js ("\n") ++ promptC)))))) := by
      rw [show promptHead = 'Y' :: promptTail from rfl]
      simp [List.append_assoc]
    rw [e3, List.dropWhile_cons_of_neg (by decide), ← e3]
  rw [e2, rstripWs_append _ _ (by decide)]

/-- C9 (amended): `explainConcept` embeds the supplied answer context in
the outbound prompt verbatim and in full — no truncation to any bounded
length is applied. -/
theorem c9_context_untruncated_amended :
    ∀ (concept ctx : Str), ctx ≠ [] →
      ∃ pre post, buildPrompt concept ctx = pre ++ ctx ++ post := by
  intro c ctx h
  exact ⟨promptHead ++ c ++ promptB ++ ctxHdr, js ("\n") ++ rstripWs promptC, by
    rw [buildPrompt_decomp c ctx h]
    simp only [List.append_assoc]⟩

/-- Counterexample to C9 as stated: a 2048-character context — far beyond
any bound on the order of 800 — appears in the outbound prompt in full. -/
theorem c9_context_untruncated_counterexample :
    800 < (List.replicate 2048 'a' : Str).length ∧
    ∃ pre post, buildPrompt (js ("OSPF")) (List.replicate 2048 'a') =
      pre ++ List.replicate 2048 'a' ++ post := by
  have hne : (List.replicate 2048 'a' : Str) ≠ [] := by
    intro h
    have hl := congrArg List.length h
    rw [List.length_replicate] at hl
    simp at hl
  constructor
  · rw [List.length_replicate]
    norm_num
  · exact ⟨promptHead ++ js ("OSPF") ++ promptB ++ ctxHdr, js ("\n") ++ rstripWs promptC, by
      rw [buildPrompt_decomp _ _ hne]
      simp only [List.append_assoc]⟩

/-- Witness for C9 (amended) at a concrete concept and context. -/
theorem c9_context_untruncated_amended_witness :
    ∃ pre post, buildPrompt (js ("OSPF")) (js ("ctx")) = pre ++ js ("ctx") ++ post :=
  c9_context_untruncated_amended (js ("OSPF")) (js ("ctx")) (by decide)

/-! ## C4: embedded-JSON extraction — infrastructure -/

lemma dropWhile_isWs_rstrip (l : Str) :
    (rstripWs (l.dropWhile isWs)).dropWhile isWs = rstripWs (l.dropWhile isWs) := by
  cases hr : rstripWs (l.dropWhile isWs) with
  | nil => rfl
  | cons c cs =>
    obtain ⟨cs', hx⟩ := rstripWs_head _ _ _ hr
    have hc : isWs c = false := dropWhile_head_not_ws l c cs' hx
    rw [List.dropWhile_cons_of_neg (by simp [hc])]

lemma rstripWs_idem (l : Str) : rstripWs (rstripWs l) = rstripWs l := by
  induction l with
  | nil => rfl
  | cons a as ih =>
    rw [rstripWs]
    cases hr : rstripWs as with
    | nil =>
      cases hw : isWs a
      · show rstripWs (a :: []) = a :: []
        rw [rstripWs, hw]
        exact rfl
      · rfl
    | cons r rs =>
      have h2 : rstripWs (r :: rs) = r :: rs := hr ▸ ih
      cases hw : isWs a
      all_goals
        show rstripWs (a :: r :: rs) = a :: r :: rs
        rw [rstripWs, h2, hw]

lemma jsTrim_idem (l : Str) : jsTrim (jsTrim l) = jsTrim l := by
  unfold jsTrim
  rw [dropWhile_isWs_rstrip, rstripWs_idem]

lemma jsTrim_of_cleanFix (s : Str) (h : cleanTextStr s = s) : jsTrim s = s := by
  conv_lhs => rw [← h]
  unfold cleanTextStr
  rw [jsTrim_idem]
  exact h

lemma head?_append_left (p r : Str) (h : p ≠ []) : (p ++ r).head? = p.head? := by
  cases p with
  | nil => exact absurd rfl h
  | cons a as => rfl

lemma looksLike_false (c : Str) (ht : jsTrim c = c)
    (h1 : c.head? ≠ some '{') (h2 : c.head? ≠ some '[') :
    looksLikeJsonBlob c = false := by
  unfold looksLikeJsonBlob
  rw [ht]
  cases hh : c.head? with
  | none => simp [hh]
  | some x =>
    rw [hh] at h1 h2
    simp at h1 h2
    simp [hh, h1, h2]

lemma dropToBrace_none (c : Str) (h : '{' ∉ c) : dropToBrace c = none := by
  induction c with
  | nil => rfl
  | cons a as ih =>
    simp only [List.mem_cons, not_or] at h
    simp [dropToBrace, Ne.symm h.1, ih h.2]

lemma dropToBrace_append (p r : Str) (hp : '{' ∉ p) :
    dropToBrace (p ++ r) = dropToBrace r := by
  induction p with
  | nil => rfl
  | cons a as ih =>
    simp only [List.mem_cons, not_or] at hp
    simp [dropToBrace, Ne.symm hp.1, ih hp.2]

lemma braceWalk_append (b : Str) (post : Str) (r : Str) :
    ∀ (d : Int) (acc : Str), braceWalk d acc b = some r →
      braceWalk d acc (b ++ post) = some r := by
  induction b with
  | nil =>
    intro d acc h
    exact absurd h (by simp [braceWalk])
  | cons c cs ih =>
    intro d acc h
    rw [List.cons_append]
    rw [braceWalk] at h ⊢
    by_cases hd : (if c = '{' then d + 1 else if c = '}' then d - 1 else d) = 0
    · simp only [if_pos hd] at h ⊢
      exact h
    · simp only [if_neg hd] at h ⊢
      exact ih _ _ h

lemma extractJsonBlock_finds (p b post : Str)
    (ht : jsTrim (p ++ b ++ post) = p ++ b ++ post)
    (hp : '{' ∉ p) (b' : Str) (hb0 : b = '{' :: b')
    (hbal : braceWalk 0 [] b = some b) :
    extractJsonBlock (p ++ b ++ post) = some b := by
  unfold extractJsonBlock
  rw [ht, List.append_assoc, dropToBrace_append _ _ hp]
  subst hb0
  rw [List.cons_append, dropToBrace]
  rw [if_pos rfl]
  rw [← List.cons_append]
  exact braceWalk_append _ post _ 0 [] hbal

lemma candTry_none (f : JsValue → Str → AiTutorResult) (obj : JsValue) (fb c : Str)
    (ht : jsTrim c = c) (h1 : c.head? ≠ some '{') (h2 : c.head? ≠ some '[')
    (h3 : '{' ∉ c) : candTry f obj fb c = none := by
  simp [candTry, ht, looksLike_false c ht h1 h2, extractJsonBlock,
    dropToBrace_none c h3]

lemma lastField_cons_ne (k₀ : Str) (v : JsValue) (rest : List (Str × JsValue)) (k : Str)
    (h : ¬ k₀ = k) : lastField ((k₀, v) :: rest) k = lastField rest k := by
  rw [lastField]
  cases hr : lastField rest k <;> simp [h]

lemma lastField_cons_str (k₀ : Str) (v : JsValue) (rest : List (Str × JsValue)) (k s : Str)
    (h : lastField rest k = .str s) : lastField ((k₀, v) :: rest) k = .str s := by
  rw [lastField, h]

lemma candTry_some (recur : JsValue → Str → AiTutorResult) (obj : JsValue) (fb c block : Str)
    (ps : List (Str × JsValue))
    (hLL : looksLikeJsonBlob (jsTrim c) = false)
    (hEx : extractJsonBlock (jsTrim c) = some block)
    (hparse : tryParseJson block = some (.obj ps))
    (hEn : hasEnough (.obj ps) = true) :
    candTry recur obj fb c = some (adoptResult recur obj fb (.obj ps)) := by
  unfold candTry
  rw [hLL]
  simp [hEx, hparse, hEn, isTruthyObject]

lemma adoptResult_single_se (recur : JsValue → Str → AiTutorResult) (cand seP fb : Str)
    (ps : List (Str × JsValue))
    (hse : lastField ps (js ("simpleExplanation")) = .str seP)
    (hseClean : cleanTextStr seP = seP)
    (hseNJ : looksLikeJsonBlob seP = false) :
    adoptResult recur (.obj [(js ("simpleExplanation"), .str cand)]) fb (.obj ps) =
      normalizeResult (cleanText (getField (.obj ps) (js ("title")))) seP
        (cleanText (getField (.obj ps) (js ("realWorldExample"))))
        (asStringArray (getField (.obj ps) (js ("keyCommands"))))
        (asStringArray (getField (.obj ps) (js ("commonMistakes"))))
        (asStringArray (getField (.obj ps) (js ("quickCheck")))) fb := by
  unfold adoptResult
  have hm : jsSpread (.obj [(js ("simpleExplanation"), .str cand)]) (.obj ps) =
      .obj ((js ("simpleExplanation"), .str cand) :: ps) := rfl
  rw [hm]
  have ht : getField (.obj ((js ("simpleExplanation"), .str cand) :: ps)) (js ("title")) =
      getField (.obj ps) (js ("title")) :=
    lastField_cons_ne _ _ _ _ (by decide)
  have hs : getField (.obj ((js ("simpleExplanation"), .str cand) :: ps))
      (js ("simpleExplanation")) = .str seP :=
    lastField_cons_str _ _ _ _ _ hse
  have hr : getField (.obj ((js ("simpleExplanation"), .str cand) :: ps))
      (js ("realWorldExample")) = getField (.obj ps) (js ("realWorldExample")) :=
    lastField_cons_ne _ _ _ _ (by decide)
  have hk : getField (.obj ((js ("simpleExplanation"), .str cand) :: ps))
      (js ("keyCommands")) = getField (.obj ps) (js ("keyCommands")) :=
    lastField_cons_ne _ _ _ _ (by decide)
  have hc : getField (.obj ((js ("simpleExplanation"), .str cand) :: ps))
      (js ("commonMistakes")) = getField (.obj ps) (js ("commonMistakes")) :=
    lastField_cons_ne _ _ _ _ (by decide)
  have hq : getField (.obj ((js ("simpleExplanation"), .str cand) :: ps))
      (js ("quickCheck")) = getField (.obj ps) (js ("quickCheck")) :=
    lastField_cons_ne _ _ _ _ (by decide)
  have hcl : cleanText (.str seP) = seP := hseClean
  simp only [ht, hs, hr, hk, hc, hq, hcl]
  have hnse : (normalizeResult (cleanText (getField (.obj ps) (js ("title")))) seP
      (cleanText (getField (.obj ps) (js ("realWorldExample"))))
      (asStringArray (getField (.obj ps) (js ("keyCommands"))))
      (asStringArray (getField (.obj ps) (js ("commonMistakes"))))
      (asStringArray (getField (.obj ps) (js ("quickCheck")))) fb).simpleExplanation =
      seP := hseClean
  rw [hnse, hseNJ]
  simp

lemma candidatesOf_single_se (c : Str) (hne : c ≠ []) (hcc : cleanTextStr c = c) :
    candidatesOf (.obj [(js ("simpleExplanation"), .str c)]) = [c] := by
  have h0 : candidatesOf (.obj [(js ("simpleExplanation"), .str c)]) =
      List.filter (fun x => x ≠ []) [cleanTextStr c, [], [], []] := rfl
  rw [h0, hcc]
  simp [hne]

lemma normalizeAnyStep_single_se (pa : JsValue → Str → AiTutorResult)
    (pt : Str → Str → AiTutorResult) (c fb : Str)
    (hne : c ≠ []) (hcc : cleanTextStr c = c) :
    normalizeAnyStep pa pt (.obj [(js ("simpleExplanation"), .str c)]) fb =
      (candTry pa (.obj [(js ("simpleExplanation"), .str c)]) fb c).getD
        (structuredTail pt (.obj [(js ("simpleExplanation"), .str c)]) fb) := by
  have h0 : normalizeAnyStep pa pt (.obj [(js ("simpleExplanation"), .str c)]) fb =
      (List.findSome? (candTry pa (.obj [(js ("simpleExplanation"), .str c)]) fb)
        (candidatesOf (.obj [(js ("simpleExplanation"), .str c)]))).getD
        (structuredTail pt (.obj [(js ("simpleExplanation"), .str c)]) fb) := rfl
  rw [h0, candidatesOf_single_se c hne hcc]
  cases hc : candTry pa (.obj [(js ("simpleExplanation"), .str c)]) fb c <;>
    simp [List.findSome?, hc]

lemma structuredTail_single_se (pt : Str → Str → AiTutorResult) (c fb : Str) :
    structuredTail pt (.obj [(js ("simpleExplanation"), .str c)]) fb =
      normalizeResult fb (cleanTextStr c) [] [] [] [] fb := by
  unfold structuredTail
  simp only [show getField (.obj [(js ("simpleExplanation"), .str c)]) (js ("title")) =
      .undefined from rfl,
    show getField (.obj [(js ("simpleExplanation"), .str c)]) (js ("simpleExplanation")) =
      .str c from rfl,
    show getField (.obj [(js ("simpleExplanation"), .str c)]) (js ("realWorldExample")) =
      .undefined from rfl,
    show getField (.obj [(js ("simpleExplanation"), .str c)]) (js ("keyCommands")) =
      .undefined from rfl,
    show getField (.obj [(js ("simpleExplanation"), .str c)]) (js ("commonMistakes")) =
      .undefined from rfl,
    show getField (.obj [(js ("simpleExplanation"), .str c)]) (js ("quickCheck")) =
      .undefined from rfl,
    show getField (.obj [(js ("simpleExplanation"), .str c)]) (js ("text")) =
      .undefined from rfl,
    show getField (.obj [(js ("simpleExplanation"), .str c)]) (js ("raw")) =
      .undefined from rfl]
  simp [cleanText, orUndef, jsOr, truthy, asStringArray,
    show cleanTextStr ([] : Str) = [] from rfl]

lemma candTry_reject (recur : JsValue → Str → AiTutorResult) (obj : JsValue)
    (fb c block : Str) (ps : List (Str × JsValue))
    (hLL : looksLikeJsonBlob (jsTrim c) = false)
    (hEx : extractJsonBlock (jsTrim c) = some block)
    (hparse : tryParseJson block = some (.obj ps))
    (hEnF : hasEnough (.obj ps) = false) :
    candTry recur obj fb c = none := by
  unfold candTry
  rw [hLL]
  simp [hEx, hparse, hEnF, isTruthyObject]

set_option maxRecDepth 10000 in
/-- C4: when the single candidate string field consists of prose followed
by a brace-balanced `{...}` block (and arbitrary trailing prose), and the
block parses as a JSON object passing the `hasEnough` test (simple
explanation longer than 30 characters once trimmed plus at least one other
structured field), the coercer adopts the parsed block's fields and the
surrounding prose does not appear in the result; a block failing the test
is rejected, leaving the structured read-out of the original object
untouched by the parsed fields. -/
theorem c4_embedded_json_extraction :
    ∀ (fuel : Nat) (prose block post b' seP : Str) (ps : List (Str × JsValue)) (fb : Str),
      cleanTextStr (prose ++ block ++ post) = prose ++ block ++ post →
      prose ≠ [] →
      prose.head? ≠ some '{' →
      prose.head? ≠ some '[' →
      '{' ∉ prose →
      block = '{' :: b' →
      braceWalk 0 [] block = some block →
      tryParseJson block = some (.obj ps) →
      ((lastField ps (js ("simpleExplanation")) = .str seP →
        hasEnough (.obj ps) = true →
        cleanTextStr seP = seP →
        looksLikeJsonBlob seP = false →
        normalizeFromAny (fuel + 1)
            (.obj [(js ("simpleExplanation"), .str (prose ++ block ++ post))]) fb =
          normalizeResult (cleanText (getField (.obj ps) (js ("title")))) seP
            (cleanText (getField (.obj ps) (js ("realWorldExample"))))
            (asStringArray (getField (.obj ps) (js ("keyCommands"))))
            (asStringArray (getField (.obj ps) (js ("commonMistakes"))))
            (asStringArray (getField (.obj ps) (js ("quickCheck")))) fb) ∧
       (hasEnough (.obj ps) = false →
        normalizeFromAny (fuel + 1)
            (.obj [(js ("simpleExplanation"), .str (prose ++ block ++ post))]) fb =
          normalizeResult fb (prose ++ block ++ post) [] [] [] [] fb)) := by
  intro fuel prose block post b' seP ps fb hclean hpne hp1 hp2 hpnb hb hbal hparse
  have hcand_ne : prose ++ block ++ post ≠ [] := by
    cases prose with
    | nil => exact absurd rfl hpne
    | cons a as => simp
  have htr : jsTrim (prose ++ block ++ post) = prose ++ block ++ post :=
    jsTrim_of_cleanFix _ hclean
  have hhead : (prose ++ block ++ post).head? = prose.head? := by
    rw [List.append_assoc]
    exact head?_append_left _ _ hpne
  have hLL : looksLikeJsonBlob (jsTrim (prose ++ block ++ post)) = false := by
    rw [htr]
    exact looksLike_false _ htr (by rw [hhead]; exact hp1) (by rw [hhead]; exact hp2)
  have hEx : extractJsonBlock (jsTrim (prose ++ block ++ post)) = some block := by
    rw [htr]
    exact extractJsonBlock_finds _ _ _ htr hpnb b' hb hbal
  have hstep : normalizeFromAny (fuel + 1)
      (.obj [(js ("simpleExplanation"), .str (prose ++ block ++ post))]) fb =
      normalizeAnyStep (normFuns fuel).1 (normFuns fuel).2
        (.obj [(js ("simpleExplanation"), .str (prose ++ block ++ post))]) fb := rfl
  constructor
  · intro hse hEn hseClean hseNJ
    rw [hstep, normalizeAnyStep_single_se _ _ _ _ hcand_ne hclean]
    rw [candTry_some _ _ _ _ block ps hLL hEx hparse hEn]
    rw [Option.getD_some]
    exact adoptResult_single_se _ _ _ _ _ hse hseClean hseNJ
  · intro hEnF
    rw [hstep, normalizeAnyStep_single_se _ _ _ _ hcand_ne hclean]
    rw [candTry_reject _ _ _ _ block ps hLL hEx hparse hEnF]
    rw [Option.getD_none, structuredTail_single_se, hclean]

/-- Witness data for C4: a rich embedded block and a fragment block. -/
def c4block : Str :=
  js ("\x7b\"simpleExplanation\":\"OSPF is a link state routing protocol used widely.\",\"keyCommands\":[\"router ospf 1\"]\x7d")

def c4blockTail : Str :=
  js ("\"simpleExplanation\":\"OSPF is a link state routing protocol used widely.\",\"keyCommands\":[\"router ospf 1\"]\x7d")

def c4seP : Str := js ("OSPF is a link state routing protocol used widely.")

def c4ps : List (Str × JsValue) :=
  [(js ("simpleExplanation"), .str c4seP),
   (js ("keyCommands"), .arr [.str (js ("router ospf 1"))])]

def c4frag : Str := js ("\x7b\"a\":1\x7d")

def c4fragTail : Str := js ("\"a\":1\x7d")

def c4fragPs : List (Str × JsValue) := [(js ("a"), .num (js ("1")))]

set_option maxRecDepth 1000000 in
/-- Witness for C4: prose followed by a rich block is adopted; prose
followed by a fragment block is rejected and the prose (with the
fragment) stays the explanation. -/
theorem c4_embedded_json_extraction_witness :
    normalizeFromAny 1
        (.obj [(js ("simpleExplanation"),
          .str (js ("Here is your result: ") ++ c4block ++ js (" done")))]) (js ("T")) =
      normalizeResult (cleanText (getField (.obj c4ps) (js ("title")))) c4seP
        (cleanText (getField (.obj c4ps) (js ("realWorldExample"))))
        (asStringArray (getField (.obj c4ps) (js ("keyCommands"))))
        (asStringArray (getField (.obj c4ps) (js ("commonMistakes"))))
        (asStringArray (getField (.obj c4ps) (js ("quickCheck")))) (js ("T")) ∧
    normalizeFromAny 1
        (.obj [(js ("simpleExplanation"),
          .str (js ("Here is your result: ") ++ c4frag ++ js (" done")))]) (js ("T")) =
      normalizeResult (js ("T"))
        (js ("Here is your result: ") ++ c4frag ++ js (" done")) [] [] [] [] (js ("T")) :=
  ⟨(c4_embedded_json_extraction 0 (js ("Here is your result: ")) c4block (js (" done"))
      c4blockTail c4seP c4ps (js ("T")) (by decide) (by decide) (by decide) (by decide)
      (by decide) rfl (by decide) rfl).1 rfl rfl (by decide) (by decide),
   (c4_embedded_json_extraction 0 (js ("Here is your result: ")) c4frag (js (" done"))
      c4fragTail c4seP c4fragPs (js ("T")) (by decide) (by decide) (by decide) (by decide)
      (by decide) rfl (by decide) rfl).2 rfl⟩

/-! ## C5: round-trip on already-valid objects -/

/-- A raw response already in the six-field target shape. -/
def sixObj (ti se rw : Str) (kc cm qc : List Str) : JsValue :=
  .obj [(js ("title"), .str ti),
        (js ("simpleExplanation"), .str se),
        (js ("realWorldExample"), .str rw),
        (js ("keyCommands"), .arr (kc.map .str)),
        (js ("commonMistakes"), .arr (cm.map .str)),
        (js ("quickCheck"), .arr (qc.map .str))]

lemma findSome?_none {α β : Type} (f : α → Option β) (l : List α)
    (h : ∀ x ∈ l, f x = none) : List.findSome? f l = none := by
  induction l with
  | nil => rfl
  | cons a as ih =>
    have ha := h a (by simp)
    have hrest := ih (fun x hx => h x (by simp [hx]))
    simp [List.findSome?, ha, hrest]

lemma asStringArray_strs (l : List Str) :
    asStringArray (.arr (l.map .str)) = (l.map cleanTextStr).filter (fun x => x ≠ []) := by
  simp only [asStringArray, List.map_map]
  rfl

lemma clean_list_id (l : List Str) (h : ∀ x ∈ l, cleanTextStr x = x ∧ x ≠ []) :
    (l.map cleanTextStr).filter (fun x => x ≠ []) = l := by
  induction l with
  | nil => rfl
  | cons a as ih =>
    have ha := h a (by simp)
    have hrest := ih (fun x hx => h x (by simp [hx]))
    simp [ha.1, ha.2]
    simpa using hrest

lemma structuredTail_six (pt : Str → Str → AiTutorResult) (ti se rw : Str)
    (kc cm qc : List Str) (fb : Str)
    (hti : cleanTextStr ti = ti) (htine : ti ≠ [])
    (hse : cleanTextStr se = se) (hrw : cleanTextStr rw = rw)
    (hkc : ∀ x ∈ kc, cleanTextStr x = x ∧ x ≠ [])
    (hcm : ∀ x ∈ cm, cleanTextStr x = x ∧ x ≠ [])
    (hqc : ∀ x ∈ qc, cleanTextStr x = x ∧ x ≠ []) :
    structuredTail pt (sixObj ti se rw kc cm qc) fb = ⟨ti, se, rw, kc, cm, qc⟩ := by
  unfold structuredTail
  simp only [show getField (sixObj ti se rw kc cm qc) (js ("title")) = .str ti from rfl,
    show getField (sixObj ti se rw kc cm qc) (js ("simpleExplanation")) = .str se from rfl,
    show getField (sixObj ti se rw kc cm qc) (js ("realWorldExample")) = .str rw from rfl,
    show getField (sixObj ti se rw kc cm qc) (js ("keyCommands")) =
      .arr (kc.map .str) from rfl,
    show getField (sixObj ti se rw kc cm qc) (js ("commonMistakes")) =
      .arr (cm.map .str) from rfl,
    show getField (sixObj ti se rw kc cm qc) (js ("quickCheck")) =
      .arr (qc.map .str) from rfl,
    show getField (sixObj ti se rw kc cm qc) (js ("text")) = .undefined from rfl,
    show getField (sixObj ti se rw kc cm qc) (js ("raw")) = .undefined from rfl]
  simp only [cleanText, hti, htine, if_pos, orUndef, jsOr, truthy, asStringArray_strs]
  simp only [normalizeResult, hti, hse, hrw, clean_list_id kc hkc, clean_list_id cm hcm,
    clean_list_id qc hqc]
  simp [hti, htine, hse, show cleanTextStr ([] : Str) = [] from rfl, clean_list_id kc hkc,
    clean_list_id cm hcm, clean_list_id qc hqc]

set_option maxRecDepth 10000 in
/-- C5 (amended): a raw response already in the six-field shape whose
string fields are clean (CRLF/NUL-free and trimmed), whose title is
nonempty, whose title and explanation carry no embedded brace block and do
not lead with a bracket, and whose list elements are clean and nonempty,
normalizes to itself exactly.  (In general string fields are trimmed and
cleaned, list elements trimming to empty are dropped, and a title trimming
to empty is replaced by the fallback — see the counterexample.) -/
theorem c5_round_trip_amended :
    ∀ (fuel : Nat) (ti se rw : Str) (kc cm qc : List Str) (fb : Str),
      cleanTextStr ti = ti → ti ≠ [] → ti.head? ≠ some '{' → ti.head? ≠ some '[' →
      '{' ∉ ti →
      cleanTextStr se = se → se.head? ≠ some '{' → se.head? ≠ some '[' → '{' ∉ se →
      cleanTextStr rw = rw →
      (∀ x ∈ kc, cleanTextStr x = x ∧ x ≠ []) →
      (∀ x ∈ cm, cleanTextStr x = x ∧ x ≠ []) →
      (∀ x ∈ qc, cleanTextStr x = x ∧ x ≠ []) →
      normalizeFromAny (fuel + 1) (sixObj ti se rw kc cm qc) fb = ⟨ti, se, rw, kc, cm, qc⟩ := by
  intro fuel ti se rw kc cm qc fb hti htine hti1 hti2 htinb hse hse1 hse2 hsenb hrw
    hkc hcm hqc
  have hstep : normalizeFromAny (fuel + 1) (sixObj ti se rw kc cm qc) fb =
      (List.findSome? (candTry (normFuns fuel).1 (sixObj ti se rw kc cm qc) fb)
        (candidatesOf (sixObj ti se rw kc cm qc))).getD
        (structuredTail (normFuns fuel).2 (sixObj ti se rw kc cm qc) fb) := rfl
  have hcands : candidatesOf (sixObj ti se rw kc cm qc) =
      List.filter (fun x => x ≠ []) [cleanTextStr se, cleanTextStr ti, [], []] := rfl
  have hnone : List.findSome? (candTry (normFuns fuel).1 (sixObj ti se rw kc cm qc) fb)
      (candidatesOf (sixObj ti se rw kc cm qc)) = none := by
    apply findSome?_none
    intro x hx
    rw [hcands, hse, hti] at hx
    have hx' := List.mem_of_mem_filter hx
    simp only [List.mem_cons, List.not_mem_nil, or_false] at hx'
    rcases hx' with rfl | hx2
    · exact candTry_none _ _ _ _ (jsTrim_of_cleanFix _ hse) hse1 hse2 hsenb
    · rcases hx2 with rfl | hx3
      · exact candTry_none _ _ _ _ (jsTrim_of_cleanFix _ hti) hti1 hti2 htinb
      · rcases hx3 with rfl | rfl <;> rfl
  rw [hstep, hnone, Option.getD_none]
  exact structuredTail_six _ _ _ _ _ _ _ _ hti htine hse hrw hkc hcm hqc

set_option maxRecDepth 100000 in
/-- Counterexample to C5 as stated: a well-formed six-field object whose
title is a single space does not normalize to itself up to trimming — the
blank title is replaced by the fallback title, not by the trimmed (empty)
string. -/
theorem c5_round_trip_counterexample :
    (normalizeFromAny 1
        (sixObj (js (" ")) (js ("A short note.")) (js ("Ex.")) [] [] []) (js ("OSPF"))).title =
      js ("OSPF") ∧
    js ("OSPF") ≠ jsTrim (js (" ")) :=
  ⟨by decide, by decide⟩

set_option maxRecDepth 100000 in
/-- Witness for C5 (amended) on a concrete clean six-field object. -/
theorem c5_round_trip_amended_witness :
    normalizeFromAny 1
        (sixObj (js ("OSPF Basics")) (js ("A link-state protocol.")) (js ("Backbones."))
          [js ("router ospf 1")] [js ("Wrong area.")] [js ("Q: A?")]) (js ("X")) =
      ⟨js ("OSPF Basics"), js ("A link-state protocol."), js ("Backbones."),
        [js ("router ospf 1")], [js ("Wrong area.")], [js ("Q: A?")]⟩ :=
  c5_round_trip_amended 0 (js ("OSPF Basics")) (js ("A link-state protocol."))
    (js ("Backbones.")) [js ("router ospf 1")] [js ("Wrong area.")] [js ("Q: A?")] (js ("X"))
    (by decide) (by decide) (by decide) (by decide) (by decide)
    (by decide) (by decide) (by decide) (by decide)
    (by decide)
    (fun x hx => by
      simp only [List.mem_singleton] at hx
      subst hx
      exact ⟨by decide, by decide⟩)
    (fun x hx => by
      simp only [List.mem_singleton] at hx
      subst hx
      exact ⟨by decide, by decide⟩)
    (fun x hx => by
      simp only [List.mem_singleton] at hx
      subst hx
      exact ⟨by decide, by decide⟩)

end CCNA
